import Mathlib

/-!
Shallow embedding of the DOW-tracker snapshot recorder
(src/DOW30_Excel_Dashboard.py and src/DOW30_Excel_Dashboard_fixed.py).

Prices are modelled as rationals, the per-day workbook as a grid of cells
indexed by (row, column) exactly as openpyxl indexes them (1-based; row 1 is
the header, column 1 the Ticker column).  Time is modelled as minutes since
an epoch: day d at hour h is the minute 1440 * d + 60 * h.
-/

namespace DOW

/-- The fixed basket of 30 tickers (TICKERS in both source files). -/
def TICKERS : List String :=
  ["AAPL", "AMGN", "AXP", "BA", "CAT", "CRM", "CSCO", "CVX", "DIS", "DOW",
   "GS", "HD", "HON", "IBM", "INTC", "JNJ", "JPM", "KO", "MCD", "MMM",
   "MRK", "MSFT", "NKE", "PG", "TRV", "UNH", "V", "VZ", "WBA", "WMT"]

/-- The HOURS table of both source files: 24-hour slot hour paired with its
column-header label, in declaration order. -/
def HOURS : List (Nat × String) :=
  [(9, "9:31 AM"), (10, "10:00 AM"), (11, "11:00 AM"), (12, "12 NOON"),
   (13, "1:00 PM"), (14, "2:00 PM"), (15, "3:00 PM"), (16, "4:00 PM")]

/-- list(HOURS.values()), the slot labels in column order. -/
def labels : List String := HOURS.map Prod.snd

/-- Python round(): round half to even (banker's rounding), on the model's
rationals. -/
def pyRound (x : ℚ) : ℤ :=
  let f := ⌊x⌋
  let r := x - f
  if r < 1 / 2 then f
  else if 1 / 2 < r then f + 1
  else if f % 2 = 0 then f else f + 1

/-- round(price, 2) as it appears in Fetcher._fetch. -/
def round2 (x : ℚ) : ℚ := (pyRound (100 * x) : ℚ) / 100

/-- A worksheet cell value: blank, a string (header or ticker), or a number. -/
inductive CellVal where
  | empty : CellVal
  | str : String → CellVal
  | num : ℚ → CellVal
deriving DecidableEq, Repr

/-- Whether a cell value is numeric (Python isinstance(v, (float, int))). -/
def CellVal.isNum : CellVal → Bool
  | .num _ => true
  | _ => false

/-- The visual up/down marker attached to a cell (fill + font in the code are
always set together, so they are modelled as one tag). -/
inductive Tag where
  | neutral : Tag
  | up : Tag
  | down : Tag
deriving DecidableEq, Repr

structure Cell where
  val : CellVal
  tag : Tag
deriving DecidableEq, Repr

/-- A worksheet: cells indexed by (row, column), 1-based as in openpyxl. -/
structure Sheet where
  cells : Nat → Nat → Cell

/-- openpyxl Worksheet.cell(row, column, value): the value is assigned only
when it is not None; calling it with value=None leaves the cell untouched. -/
def setCellValue (ws : Sheet) (r c : Nat) (v : Option ℚ) : Sheet :=
  match v with
  | none => ws
  | some q =>
      ⟨fun r' c' => if r' = r ∧ c' = c then ⟨CellVal.num q, (ws.cells r c).tag⟩
                    else ws.cells r' c'⟩

/-- Assigning cell.fill and cell.font (modelled as one tag write). -/
def setTag (ws : Sheet) (r c : Nat) (t : Tag) : Sheet :=
  ⟨fun r' c' => if r' = r ∧ c' = c then ⟨(ws.cells r c).val, t⟩
                else ws.cells r' c'⟩

/-- One iteration of the merge loop in Fetcher._fetch:
val = round(price, 2) if numeric else None; cell = ws.cell(r, col, val);
prev = ws.cell(r, col - 1).value; tag up/down when both prev and val are
numeric and differ. -/
def mergeCell (ws : Sheet) (r c : Nat) (price : Option ℚ) : Sheet :=
  let val : Option ℚ := price.map round2
  let ws1 := setCellValue ws r c val
  let prev := (ws1.cells r (c - 1)).val
  match prev, val with
  | CellVal.num pv, some v =>
      if pv < v then setTag ws1 r c Tag.up
      else if v < pv then setTag ws1 r c Tag.down
      else ws1
  | _, _ => ws1

/-- The whole merge loop: for r, price in enumerate(prices, start=2). -/
def mergeRows (col : Nat) : Nat → List (Option ℚ) → Sheet → Sheet
  | _, [], ws => ws
  | row, p :: rest, ws => mergeRows col (row + 1) rest (mergeCell ws row col p)

/-- Merging one slot-fetch's price list into the sheet at column col. -/
def mergePrices (ws : Sheet) (col : Nat) (prices : List (Option ℚ)) : Sheet :=
  mergeRows col 2 prices ws

/-- Python list.index: position of the first equal element, none when the
element is missing (modelling the raised ValueError). -/
def indexOfLabel (lbl : String) : List String → Option Nat
  | [] => none
  | l :: rest => if l = lbl then some 0 else (indexOfLabel lbl rest).map (· + 1)

/-- col = list(HOURS.values()).index(label) + 2; none models the ValueError
raised for an unknown label. -/
def colOf (label : String) : Option Nat :=
  (indexOfLabel label labels).map (· + 2)

/-- Outcome of one per-symbol lookup as seen by the executor: a returned
price, a returned None, or a raised exception. -/
inductive SymResult where
  | ok : ℚ → SymResult
  | absent : SymResult
  | err : SymResult
deriving DecidableEq, Repr

/-- prices = list(ThreadPoolExecutor(8).map(_get, TICKERS)): collecting the
map's results re-raises the first worker exception, so one raising lookup
makes the whole collection raise (modelled as none). -/
def collectPrices : List SymResult → Option (List (Option ℚ))
  | [] => some []
  | SymResult.ok q :: rest => (collectPrices rest).map (fun l => some q :: l)
  | SymResult.absent :: rest => (collectPrices rest).map (fun l => none :: l)
  | SymResult.err :: _ => none

/-- Inputs determining one fetch-merge-persist cycle for a slot: the column
label, the 30 per-symbol lookup outcomes, and whether wb.save succeeds. -/
structure CycleInput where
  label : String
  results : List SymResult
  saveOk : Bool

/-- One _fetch invocation acting on the persisted sheet.  The whole body is
wrapped in try/except: a raising lookup, an unknown label, or a failing save
leaves the persisted record as it was. -/
def fetchCycle (disk : Sheet) (inp : CycleInput) : Sheet :=
  match collectPrices inp.results with
  | none => disk
  | some prices =>
      match colOf inp.label with
      | none => disk
      | some col =>
          let ws := mergePrices disk col prices
          if inp.saveOk then ws else disk

/-- The background scheduling loop dispatching jobs in order; every job is
wrapped, so each one runs regardless of earlier failures. -/
def runJobs (disk : Sheet) : List CycleInput → Sheet
  | [] => disk
  | j :: rest => runJobs (fetchCycle disk j) rest

/-- Header row contents created by ensure_workbook:
ws.append(["Ticker"] + list(HOURS.values())). -/
def headerVal (c : Nat) : CellVal :=
  if c = 1 then CellVal.str "Ticker"
  else if 2 ≤ c ∧ c ≤ 1 + labels.length then CellVal.str (labels.getD (c - 2) "")
  else CellVal.empty

/-- The freshly created day sheet: header row, one row per ticker with the
ticker in column 1 and every slot cell blank. -/
def initialSheet : Sheet :=
  ⟨fun r c =>
    if r = 1 then ⟨headerVal c, Tag.neutral⟩
    else if 2 ≤ r ∧ r ≤ 1 + TICKERS.length ∧ c = 1 then
      ⟨CellVal.str (TICKERS.getD (r - 2) ""), Tag.neutral⟩
    else ⟨CellVal.empty, Tag.neutral⟩⟩

/-- What one loop iteration does to the tag of the written cell, as a pure
function of the left-neighbour value, the written value and the old tag. -/
def tagSpec (left : CellVal) (v : ℚ) (oldTag : Tag) : Tag :=
  match left with
  | CellVal.num pv => if pv < v then Tag.up else if v < pv then Tag.down else oldTag
  | _ => oldTag

/-- What one loop iteration does to the whole written cell: a present sample
overwrites the value and retags; an absent sample leaves the cell alone. -/
def mergeSpec (old : Cell) (left : CellVal) (sample : Option (Option ℚ)) : Cell :=
  match sample with
  | some (some q) => ⟨CellVal.num (round2 q), tagSpec left (round2 q) old.tag⟩
  | _ => old

theorem mergeCell_cells_ne (ws : Sheet) (r c : Nat) (p : Option ℚ) (r' c' : Nat)
    (h : ¬(r' = r ∧ c' = c)) :
    (mergeCell ws r c p).cells r' c' = ws.cells r' c' := by
  cases p with
  | none =>
      simp only [mergeCell, Option.map_none', setCellValue]
      cases hp : (ws.cells r (c - 1)).val <;> simp
  | some q =>
      simp only [mergeCell, Option.map_some', setCellValue]
      cases hp : (Sheet.cells ⟨fun r' c' =>
          if r' = r ∧ c' = c then ⟨CellVal.num (round2 q), (ws.cells r c).tag⟩
          else ws.cells r' c'⟩ r (c - 1)).val <;>
        simp_all [setTag] <;> split_ifs <;> simp_all

theorem mergeCell_cells_self (ws : Sheet) (r c : Nat) (p : Option ℚ) (hc : 1 ≤ c) :
    (mergeCell ws r c p).cells r c =
      mergeSpec (ws.cells r c) ((ws.cells r (c - 1)).val) (some p) := by
  have hne : c - 1 ≠ c := by omega
  cases p with
  | none =>
      simp only [mergeCell, Option.map_none', setCellValue, mergeSpec]
      cases hp : (ws.cells r (c - 1)).val <;> simp
  | some q =>
      simp only [mergeCell, Option.map_some', setCellValue, Sheet.cells, hne,
        and_false, if_false, mergeSpec, tagSpec]
      cases hp : (ws.cells r (c - 1)).val <;>
        simp [hp, setTag] <;> split_ifs <;> simp

theorem mergeRows_cells (prices : List (Option ℚ)) (ws : Sheet) (col row r c : Nat)
    (hcol : 1 ≤ col) :
    (mergeRows col row prices ws).cells r c =
      if c = col then
        mergeSpec (ws.cells r c) ((ws.cells r (c - 1)).val)
          (if row ≤ r then prices.get? (r - row) else none)
      else ws.cells r c := by
  induction prices generalizing ws row with
  | nil =>
      by_cases hc : c = col
      · rw [if_pos hc]
        split_ifs <;> rfl
      · rw [if_neg hc]
        rfl
  | cons p rest ih =>
      show (mergeRows col (row + 1) rest (mergeCell ws row col p)).cells r c = _
      rw [ih (mergeCell ws row col p) (row + 1)]
      by_cases hc : c = col
      · subst hc
        have hleft : (mergeCell ws row c p).cells r (c - 1) = ws.cells r (c - 1) :=
          mergeCell_cells_ne _ _ _ _ _ _ (by omega)
        by_cases hr : r = row
        · subst hr
          rw [if_pos rfl, if_pos rfl, if_neg (by omega), hleft,
            mergeCell_cells_self ws r c p hcol]
          simp [mergeSpec]
        · have hcell : (mergeCell ws row c p).cells r c = ws.cells r c :=
            mergeCell_cells_ne _ _ _ _ _ _ (by simp [hr])
          rw [if_pos rfl, if_pos rfl, hcell, hleft]
          by_cases hlt : row ≤ r
          · have h1 : row + 1 ≤ r := by omega
            rw [if_pos h1, if_pos hlt]
            have : r - row = (r - (row + 1)) + 1 := by omega
            rw [this]
            rfl
          · rw [if_neg (by omega), if_neg hlt]
      · rw [if_neg hc, if_neg hc,
          mergeCell_cells_ne _ _ _ _ _ _ (by simp [hc])]

theorem mergePrices_cells (ws : Sheet) (col : Nat) (prices : List (Option ℚ))
    (r c : Nat) (hcol : 1 ≤ col) :
    (mergePrices ws col prices).cells r c =
      if c = col then
        mergeSpec (ws.cells r c) ((ws.cells r (c - 1)).val)
          (if 2 ≤ r then prices.get? (r - 2) else none)
      else ws.cells r c :=
  mergeRows_cells prices ws col 2 r c hcol

theorem indexOfLabel_lt_length (lbl : String) :
    ∀ (l : List String) (i : Nat), indexOfLabel lbl l = some i → i < l.length := by
  intro l
  induction l with
  | nil => intro i h; simp [indexOfLabel] at h
  | cons a rest ih =>
      intro i h
      simp only [indexOfLabel] at h
      split_ifs at h with ha
      · simp_all
        omega
      · cases hi : indexOfLabel lbl rest with
        | none => rw [hi] at h; simp at h
        | some j =>
            rw [hi] at h
            simp at h
            have := ih j hi
            simp [List.length_cons]
            omega

theorem colOf_bounds (label : String) (col : Nat) (h : colOf label = some col) :
    2 ≤ col ∧ col ≤ 9 := by
  simp only [colOf] at h
  cases hi : indexOfLabel label labels with
  | none => rw [hi] at h; simp at h
  | some i =>
      rw [hi] at h
      simp at h
      have := indexOfLabel_lt_length label labels i hi
      simp [labels, HOURS] at this
      omega

theorem collectPrices_eq_none (rs : List SymResult) :
    collectPrices rs = none ↔ SymResult.err ∈ rs := by
  induction rs with
  | nil => simp [collectPrices]
  | cons a rest ih =>
      cases a <;> simp [collectPrices, ih]

theorem runJobs_cons (disk : Sheet) (j : CycleInput) (rest : List CycleInput) :
    runJobs disk (j :: rest) = runJobs (fetchCycle disk j) rest := rfl

/-- Day d at hour h:00 as minutes since an epoch
(datetime.combine(day, time(hour=h))). -/
def combineAt (d h : Nat) : Nat := 1440 * d + 60 * h

/-- Mode of a scheduled fetch job: historical window or live quote. -/
inductive Mode where
  | hist : Mode
  | live : Mode
deriving DecidableEq, Repr

/-- One job registered with schedule.every().day.at(h:00): it fires daily at
hour h starting on firstDay; isFetch distinguishes the slot fetches from the
midnight ensure_workbook job. -/
structure DailyJob where
  hour : Nat
  mode : Mode
  firstDay : Nat
  isFetch : Bool
deriving DecidableEq, Repr

/-- First day a daily at-time job registered on day d0 at minute-of-day tau
fires: the schedule library runs it the same day only when the at-time is
still strictly ahead of the clock, otherwise the next day. -/
def firstFireDay (d0 tau h : Nat) : Nat :=
  if tau < 60 * h then d0 else d0 + 1

/-- The jobs Fetcher.__init__ registers (both files): the midnight
ensure_workbook job, one daily historical fetch per slot hour, and one daily
live fetch per slot hour. -/
def registeredJobs (d0 tau : Nat) : List DailyJob :=
  { hour := 0, mode := Mode.live, firstDay := firstFireDay d0 tau 0, isFetch := false } ::
    ((HOURS.map fun p =>
      { hour := p.1, mode := Mode.hist, firstDay := firstFireDay d0 tau p.1,
        isFetch := true }) ++
    HOURS.map fun p =>
      { hour := p.1, mode := Mode.live, firstDay := firstFireDay d0 tau p.1,
        isFetch := true })

/-- The immediate back-fills run inside Fetcher.__init__ (the loop body
guarded by now >= hist_dt), for a process started on day d0 at minute-of-day
tau. -/
def startupBackfills (d0 tau : Nat) : List (Nat × String) :=
  HOURS.filter fun p => decide (combineAt d0 p.1 ≤ 1440 * d0 + tau)

/-- How many fetch-and-persist invocations happen for slot hour h on day d,
for a process started on day d0 at minute-of-day tau and running through day
d: the startup back-fill (on the start day only) plus every registered daily
fetch job for that hour whose first firing day has been reached. -/
def fetchCountOn (d0 tau h d : Nat) : Nat :=
  (if d = d0 then (startupBackfills d0 tau).countP (fun p => p.1 == h) else 0) +
    (registeredJobs d0 tau).countP
      (fun j => j.isFetch && j.hour == h && decide (j.firstDay ≤ d))

/-- Historical timestamp used by the original file's scheduled historical
job when it fires on day fireDay: the lambda captured hist_dt computed on
the startup day d0 (lambda l=lbl, d=hist_dt). -/
def histJobDtOrig (d0 _fireDay h : Nat) : Nat := combineAt d0 h

/-- Historical timestamp used by the fixed file's scheduled historical job:
datetime.combine(date.today(), time(hour=h)) evaluated on the firing day. -/
def histJobDtFixed (_d0 fireDay h : Nat) : Nat := combineAt fireDay h

/-- Historical timestamp the startup back-fill computes when the process is
(re)started on day d: datetime.combine(date.today(), time(hour=h)). -/
def backfillDt (d h : Nat) : Nat := combineAt d h

/-- What the upstream providers would answer for one symbol: the closes
(chronologically ordered) inside the queried history window, the yfinance
info regularMarketPrice, and the public quote endpoint's price. -/
structure ProviderView where
  window : List ℚ
  infoPrice : Option ℚ
  fallbackPrice : Option ℚ

/-- Result of one _get call together with whether any live-quote lookup
(yfinance info or the public endpoint) was performed. -/
structure GetOutcome where
  price : Option ℚ
  liveCalled : Bool
deriving DecidableEq, Repr

/-- The start and end passed to the yfinance history query for hist_dt, in
minutes: start = hist_dt - timedelta(minutes=1), end = hist_dt +
timedelta(minutes=1) (identical in both files). -/
def histQueryWindow (histDt : Int) : Int × Int := (histDt - 1, histDt + 1)

/-- The live lookup of the original file's _get: info price, then the public
endpoint, then return float(p) if p else None (so a price of 0 is falsy and
becomes None). -/
def liveLookupOrig (infoPrice fallbackPrice : Option ℚ) : GetOutcome :=
  let p := match infoPrice with
           | some q => some q
           | none => fallbackPrice
  ⟨match p with
    | some q => if q = 0 then none else some q
    | none => none, true⟩

/-- _get of src/DOW30_Excel_Dashboard.py in historical mode: the last close
in the window if any, otherwise fall through to the live lookup. -/
def getHistOrig (P : ProviderView) : GetOutcome :=
  match P.window.getLast? with
  | some q => ⟨some q, false⟩
  | none => liveLookupOrig P.infoPrice P.fallbackPrice

/-- _get of src/DOW30_Excel_Dashboard_fixed.py in historical mode: the last
close in the window if any, otherwise None with no further lookup. -/
def getHistFixed (P : ProviderView) : GetOutcome :=
  match P.window.getLast? with
  | some q => ⟨some q, false⟩
  | none => ⟨none, false⟩

theorem countP_of_filter {α : Type} (l : List α) (p q : α → Bool) :
    (l.filter q).countP p = l.countP (fun a => p a && q a) := by
  induction l with
  | nil => rfl
  | cons a t ih =>
      by_cases hq : q a <;> by_cases hp : p a <;>
        simp [List.filter_cons, List.countP_cons, hq, hp, ih]

theorem hourMembers (h : Nat) (hh : h ∈ HOURS.map Prod.fst) :
    h = 9 ∨ h = 10 ∨ h = 11 ∨ h = 12 ∨ h = 13 ∨ h = 14 ∨ h = 15 ∨ h = 16 := by
  simpa [HOURS] using hh

theorem countP_backfills (d0 tau h : Nat) (hh : h ∈ HOURS.map Prod.fst) :
    (startupBackfills d0 tau).countP (fun p => p.1 == h) =
      if 60 * h ≤ tau then 1 else 0 := by
  unfold startupBackfills
  rw [countP_of_filter]
  rcases hourMembers h hh with rfl | rfl | rfl | rfl | rfl | rfl | rfl | rfl <;>
    simp only [HOURS, List.countP_cons, List.countP_nil, combineAt] <;>
    simp

theorem countP_jobs (d0 tau h d : Nat) (hh : h ∈ HOURS.map Prod.fst) :
    (registeredJobs d0 tau).countP
        (fun j => j.isFetch && j.hour == h && decide (j.firstDay ≤ d)) =
      if firstFireDay d0 tau h ≤ d then 2 else 0 := by
  rcases hourMembers h hh with rfl | rfl | rfl | rfl | rfl | rfl | rfl | rfl <;>
    simp only [registeredJobs, HOURS, List.map_cons, List.map_nil,
      List.countP_cons, List.countP_append, List.countP_nil] <;>
    simp [firstFireDay] <;> split_ifs <;> omega

example : colOf "10:00 AM" = some 3 := by decide
example : colOf "bogus" = none := by decide
example : round2 (5 : ℚ) = 5 := by with_unfolding_all decide
example : collectPrices [SymResult.ok 1, SymResult.err] = none := by decide
example : ((mergePrices initialSheet 2 [some 5]).cells 2 2).val
    = CellVal.num 5 := by with_unfolding_all decide

theorem pyRound_nonneg (x : ℚ) (hx : 0 ≤ x) : 0 ≤ pyRound x := by
  have hf : (0 : ℤ) ≤ ⌊x⌋ := Int.floor_nonneg.mpr hx
  simp only [pyRound]
  split_ifs <;> omega

theorem round2_nonneg (q : ℚ) (hq : 0 ≤ q) : 0 ≤ round2 q := by
  unfold round2
  apply div_nonneg _ (by norm_num)
  exact_mod_cast pyRound_nonneg (100 * q) (by linarith)

/-- Column 1 of the sheet never holds a numeric value. -/
def colOneNonNum (S : Sheet) : Prop := ∀ r, ((S.cells r 1).val).isNum = false

/-- Column 2 (the first slot column) carries no up/down marker anywhere. -/
def colTwoUntagged (S : Sheet) : Prop := ∀ r, (S.cells r 2).tag = Tag.neutral

theorem fetchCycle_preserves (S : Sheet) (j : CycleInput)
    (h1 : colOneNonNum S) (h2 : colTwoUntagged S) :
    colOneNonNum (fetchCycle S j) ∧ colTwoUntagged (fetchCycle S j) := by
  cases hc : collectPrices j.results with
  | none =>
      rw [show fetchCycle S j = S by simp [fetchCycle, hc]]
      exact ⟨h1, h2⟩
  | some prices =>
      cases hcol : colOf j.label with
      | none =>
          rw [show fetchCycle S j = S by simp [fetchCycle, hc, hcol]]
          exact ⟨h1, h2⟩
      | some col =>
          by_cases hs : j.saveOk
          · rw [show fetchCycle S j = mergePrices S col prices by
              simp [fetchCycle, hc, hcol, hs]]
            have hb := colOf_bounds j.label col hcol
            constructor
            · intro r
              rw [mergePrices_cells S col prices r 1 (by omega),
                if_neg (by omega)]
              exact h1 r
            · intro r
              rw [mergePrices_cells S col prices r 2 (by omega)]
              by_cases h2c : (2 : Nat) = col
              · rw [if_pos h2c]
                cases hsamp : (if 2 ≤ r then prices.get? (r - 2) else none) with
                | none => simpa [mergeSpec] using h2 r
                | some s =>
                    cases s with
                    | none => simpa [mergeSpec] using h2 r
                    | some q =>
                        simp only [mergeSpec]
                        cases hv : (S.cells r 1).val with
                        | num pv =>
                            exact absurd (h1 r) (by simp [hv, CellVal.isNum])
                        | empty => simpa [tagSpec] using h2 r
                        | str s => simpa [tagSpec] using h2 r
              · rw [if_neg h2c]
                exact h2 r
          · rw [show fetchCycle S j = S by simp [fetchCycle, hc, hcol, hs]]
            exact ⟨h1, h2⟩

theorem initialSheet_colOneNonNum : colOneNonNum initialSheet := by
  intro r
  unfold initialSheet
  simp only [Sheet.cells]
  split_ifs <;> simp [headerVal, CellVal.isNum]

theorem initialSheet_colTwoUntagged : colTwoUntagged initialSheet := by
  intro r
  unfold initialSheet
  simp only [Sheet.cells]
  split_ifs <;> rfl

/-- C1: for every DailyRecord, once a (Symbol, Slot) cell holds a non-null
value, no fetch-merge-persist cycle — in particular one whose sample for
that cell is absent — sets it back to null; the cell changes only when the
cycle writes a present re-fetched value (the rounded price) into exactly
that cell. -/
theorem claim1_nonnull_monotone (disk : Sheet) (j : CycleInput) (r c : Nat)
    (v : ℚ) (h : (disk.cells r c).val = CellVal.num v) :
    ((fetchCycle disk j).cells r c).val = CellVal.num v ∨
    ∃ q prices, collectPrices j.results = some prices ∧ colOf j.label = some c ∧
      prices.get? (r - 2) = some (some q) ∧
      ((fetchCycle disk j).cells r c).val = CellVal.num (round2 q) := by
  cases hc : collectPrices j.results with
  | none =>
      rw [show fetchCycle disk j = disk by simp [fetchCycle, hc]]
      exact Or.inl h
  | some prices =>
      cases hcol : colOf j.label with
      | none =>
          rw [show fetchCycle disk j = disk by simp [fetchCycle, hc, hcol]]
          exact Or.inl h
      | some col =>
          by_cases hs : j.saveOk
          · rw [show fetchCycle disk j = mergePrices disk col prices by
              simp [fetchCycle, hc, hcol, hs]]
            have hb := colOf_bounds j.label col hcol
            rw [mergePrices_cells disk col prices r c (by omega)]
            by_cases hcc : c = col
            · rw [if_pos hcc]
              by_cases hr : 2 ≤ r
              · rw [if_pos hr]
                cases hget : prices.get? (r - 2) with
                | none => exact Or.inl (by simpa [mergeSpec] using h)
                | some s =>
                    cases s with
                    | none => exact Or.inl (by simpa [mergeSpec] using h)
                    | some q =>
                        refine Or.inr ⟨q, prices, rfl, ?_, hget, ?_⟩
                        · rw [hcc]
                        · simp [mergeSpec]
              · rw [if_neg hr]
                exact Or.inl h
            · rw [if_neg hcc]
              exact Or.inl h
          · rw [show fetchCycle disk j = disk by simp [fetchCycle, hc, hcol, hs]]
            exact Or.inl h

/-- A sheet holding one merged value, used to witness claim 1. -/
def sheetWithValue : Sheet :=
  fetchCycle initialSheet ⟨"9:31 AM", [SymResult.ok 5], true⟩

theorem claim1_witness :
    (sheetWithValue.cells 2 2).val = CellVal.num 5 ∧
    (((fetchCycle sheetWithValue ⟨"9:31 AM", [SymResult.absent], true⟩).cells
        2 2).val = CellVal.num 5 ∨
      ∃ q prices, collectPrices [SymResult.absent] = some prices ∧
        colOf "9:31 AM" = some 2 ∧ prices.get? 0 = some (some q) ∧
        ((fetchCycle sheetWithValue ⟨"9:31 AM", [SymResult.absent], true⟩).cells
            2 2).val = CellVal.num (round2 q)) :=
  ⟨by with_unfolding_all decide,
    claim1_nonnull_monotone sheetWithValue ⟨"9:31 AM", [SymResult.absent], true⟩
      2 2 5 (by with_unfolding_all decide)⟩

/-- C9: a raising per-symbol lookup, an unknown slot label, or a failing
save makes the whole fetch-merge-persist cycle a no-op on the persisted
record, and the scheduling loop goes on to run the remaining jobs. -/
theorem claim9_exception_noop (disk : Sheet) (j : CycleInput)
    (rest : List CycleInput)
    (h : SymResult.err ∈ j.results ∨ colOf j.label = none ∨ j.saveOk = false) :
    fetchCycle disk j = disk ∧ runJobs disk (j :: rest) = runJobs disk rest := by
  have hfc : fetchCycle disk j = disk := by
    rcases h with he | hl | hs
    · simp [fetchCycle, (collectPrices_eq_none j.results).mpr he]
    · cases hc : collectPrices j.results with
      | none => simp [fetchCycle, hc]
      | some prices => simp [fetchCycle, hc, hl]
    · cases hc : collectPrices j.results with
      | none => simp [fetchCycle, hc]
      | some prices =>
          cases hcol : colOf j.label with
          | none => simp [fetchCycle, hc, hcol]
          | some col => simp [fetchCycle, hc, hcol, hs]
  exact ⟨hfc, by rw [runJobs_cons, hfc]⟩

/-- A cycle input whose label is not a known slot label. -/
def unknownLabelJob : CycleInput := ⟨"5:00 PM", [], true⟩

theorem claim9_witness :
    fetchCycle initialSheet unknownLabelJob = initialSheet ∧
    runJobs initialSheet (unknownLabelJob :: []) = runJobs initialSheet [] :=
  claim9_exception_noop initialSheet unknownLabelJob []
    (Or.inr (Or.inl (by decide)))

/-- C10: in any run starting from a fresh day sheet, cells of the first slot
column (column 2, right of the Ticker column) never carry an up or down
marker: the left neighbour compared against is the non-numeric ticker cell,
so no merge ever tags them. -/
theorem claim10_first_slot_untagged (jobs : List CycleInput) (r : Nat) :
    ((runJobs initialSheet jobs).cells r 2).tag = Tag.neutral := by
  suffices h : ∀ S : Sheet, colOneNonNum S → colTwoUntagged S →
      colOneNonNum (runJobs S jobs) ∧ colTwoUntagged (runJobs S jobs) by
    exact (h initialSheet initialSheet_colOneNonNum initialSheet_colTwoUntagged).2 r
  induction jobs with
  | nil => intro S h1 h2; exact ⟨h1, h2⟩
  | cons j rest ih =>
      intro S h1 h2
      have hstep := fetchCycle_preserves S j h1 h2
      exact ih (fetchCycle S j) hstep.1 hstep.2

/-- C2 counterexample: a process started at midnight of day 0 runs the slot
9 fetch-and-persist twice on day 0 (both the scheduled historical and the
scheduled live job fire), not exactly once. -/
theorem claim2_cex : fetchCountOn 0 0 9 0 = 2 ∧ fetchCountOn 0 0 9 0 ≠ 1 := by
  decide

/-- C2 amended: the slot fetch-and-persist runs exactly once on a day only
when the process started that day at or after the slot hour (the immediate
back-fill, with the daily jobs deferred to the next day); on any day where
the slot hour arrives while the process is running it runs twice, because
the scheduled historical job and the scheduled live job both fire. -/
theorem claim2_amended (d0 tau h d : Nat) (hh : h ∈ HOURS.map Prod.fst)
    (hd : d0 ≤ d) :
    fetchCountOn d0 tau h d = if d = d0 ∧ 60 * h ≤ tau then 1 else 2 := by
  unfold fetchCountOn
  rw [countP_jobs d0 tau h d hh, countP_backfills d0 tau h hh]
  unfold firstFireDay
  split_ifs <;> omega

theorem claim2_witness :
    fetchCountOn 5 800 13 5 = if 5 = 5 ∧ 60 * 13 ≤ 800 then 1 else 2 :=
  claim2_amended 5 800 13 5 (by decide) (by decide)

/-- C3 counterexample: the queried history window is two minutes wide, not
one, and the original file's _get with an empty window performs the live
lookup and returns its price instead of an absent sample. -/
theorem claim3_cex :
    (histQueryWindow 0).2 - (histQueryWindow 0).1 = 2 ∧
    (histQueryWindow 0).2 - (histQueryWindow 0).1 ≠ 1 ∧
    getHistOrig ⟨[], some 42, none⟩ = ⟨some 42, true⟩ := by
  with_unfolding_all decide

/-- C3 amended: the historical query covers hist_dt plus/minus one minute (a
two-minute-wide centred window); a non-empty window yields its
chronologically last close with no live call in both files; an empty window
yields an absent sample with no live call only in the fixed file, while the
original file falls through to the live lookup. -/
theorem claim3_amended (P Q : ProviderView) (histDt : Int) (q : ℚ)
    (hP : P.window.getLast? = some q) (hQ : Q.window = []) :
    (histQueryWindow histDt = (histDt - 1, histDt + 1) ∧
      (histQueryWindow histDt).2 - (histQueryWindow histDt).1 = 2) ∧
    (getHistOrig P = ⟨some q, false⟩ ∧ getHistFixed P = ⟨some q, false⟩) ∧
    (getHistFixed Q = ⟨none, false⟩ ∧ (getHistOrig Q).liveCalled = true) := by
  refine ⟨⟨rfl, by simp only [histQueryWindow]; omega⟩, ⟨?_, ?_⟩, ⟨?_, ?_⟩⟩
  · simp [getHistOrig, hP]
  · simp [getHistFixed, hP]
  · simp [getHistFixed, hQ]
  · simp [getHistOrig, liveLookupOrig, hQ]

theorem claim3_witness :
    ((histQueryWindow 0 = (0 - 1, 0 + 1) ∧
      (histQueryWindow 0).2 - (histQueryWindow 0).1 = 2) ∧
    (getHistOrig ⟨[3], none, none⟩ = ⟨some 3, false⟩ ∧
      getHistFixed ⟨[3], none, none⟩ = ⟨some 3, false⟩) ∧
    (getHistFixed ⟨[], some 42, none⟩ = ⟨none, false⟩ ∧
      (getHistOrig ⟨[], some 42, none⟩).liveCalled = true)) :=
  claim3_amended ⟨[3], none, none⟩ ⟨[], some 42, none⟩ 0 3 rfl rfl

/-- A batch where 29 symbols succeed and the last lookup raises. -/
def resultsWithErr : List SymResult :=
  List.replicate 29 (SymResult.ok 100) ++ [SymResult.err]

/-- C4 counterexample: with 29 succeeding symbols and one raising lookup the
whole batch is skipped — the first symbol's fetched value is never written,
its cell stays blank. -/
theorem claim4_cex :
    resultsWithErr.length = 30 ∧
    resultsWithErr.get? 0 = some (SymResult.ok 100) ∧
    ((fetchCycle initialSheet ⟨"10:00 AM", resultsWithErr, true⟩).cells
        2 3).val = CellVal.empty := by
  with_unfolding_all decide

/-- C4 amended: when failing lookups merely return no sample, the merge
writes every present value and leaves the failing symbols' cells unchanged
(hence still absent on a first fetch); but when any single lookup raises,
collecting the concurrent results re-raises and the whole batch is skipped
with no cell written. -/
theorem claim4_amended (disk : Sheet) (label : String)
    (results : List SymResult) (col r : Nat) (q : ℚ)
    (hcol : colOf label = some col) (hr : 2 ≤ r) :
    (SymResult.err ∈ results →
      fetchCycle disk ⟨label, results, true⟩ = disk) ∧
    ∀ prices, collectPrices results = some prices →
      (prices.get? (r - 2) = some (some q) →
        ((fetchCycle disk ⟨label, results, true⟩).cells r col).val
          = CellVal.num (round2 q)) ∧
      (prices.get? (r - 2) = some none →
        (fetchCycle disk ⟨label, results, true⟩).cells r col
          = disk.cells r col) := by
  have hb := colOf_bounds label col hcol
  constructor
  · intro he
    simp [fetchCycle, (collectPrices_eq_none results).mpr he]
  · intro prices hp
    have heq : fetchCycle disk ⟨label, results, true⟩
        = mergePrices disk col prices := by
      simp [fetchCycle, hp, hcol]
    rw [heq]
    constructor
    · intro hq
      rw [mergePrices_cells disk col prices r col (by omega), if_pos rfl,
        if_pos hr, hq]
      simp [mergeSpec]
    · intro hq
      rw [mergePrices_cells disk col prices r col (by omega), if_pos rfl,
        if_pos hr, hq]
      simp [mergeSpec]

theorem claim4_witness :
    (SymResult.err ∈ [SymResult.ok 5, SymResult.absent] →
      fetchCycle initialSheet
        ⟨"10:00 AM", [SymResult.ok 5, SymResult.absent], true⟩ = initialSheet) ∧
    ∀ prices, collectPrices [SymResult.ok 5, SymResult.absent] = some prices →
      (prices.get? (2 - 2) = some (some 5) →
        ((fetchCycle initialSheet
            ⟨"10:00 AM", [SymResult.ok 5, SymResult.absent], true⟩).cells
          2 3).val = CellVal.num (round2 5)) ∧
      (prices.get? (2 - 2) = some none →
        (fetchCycle initialSheet
            ⟨"10:00 AM", [SymResult.ok 5, SymResult.absent], true⟩).cells 2 3
          = initialSheet.cells 2 3) :=
  claim4_amended initialSheet "10:00 AM" [SymResult.ok 5, SymResult.absent]
    3 2 5 (by decide) (by decide)

/-- C5 (code bug in the original file): the original scheduled historical
job reuses the hist_dt captured on the startup day, so when it fires on a
later day it queries the startup day's timestamp, while the fixed file's
job — like a restart back-fill on the firing day — queries the firing day's
timestamp. -/
theorem claim5_divergence :
    histJobDtOrig 0 1 9 = combineAt 0 9 ∧
    histJobDtFixed 0 1 9 = combineAt 1 9 ∧
    histJobDtFixed 0 1 9 = backfillDt 1 9 ∧
    histJobDtOrig 0 1 9 ≠ backfillDt 1 9 := by decide

/-- Sheet after merging 100 into slot column 2. -/
def sheetSlot1 : Sheet := mergePrices initialSheet 2 [some 100]

/-- Sheet after additionally merging 105 into slot column 3 (tagged up). -/
def sheetSlot2 : Sheet := mergePrices sheetSlot1 3 [some 105]

/-- Sheet after re-merging slot column 3 with 100 (equal to column 2). -/
def sheetRemerged : Sheet := mergePrices sheetSlot2 3 [some 100]

/-- C6 counterexample: a re-merge that writes a value equal to the left
neighbour leaves the stale up marker from the previous merge in place, so
the marker is not a pure function of (value at k, value at k-1): the
claimed rule requires a neutral (untagged) cell here. -/
theorem claim6_cex :
    (sheetRemerged.cells 2 2).val = CellVal.num 100 ∧
    (sheetRemerged.cells 2 3).val = CellVal.num 100 ∧
    (sheetRemerged.cells 2 3).tag = Tag.up := by
  with_unfolding_all decide

/-- C6 amended: a merge writes the up marker exactly when both the new value
and the left neighbour are present with the new value strictly greater, the
down marker when strictly less, and otherwise (equal, either side absent, or
sample missing) applies no marker but also leaves any previously applied
marker in place, so the cell is neutral in those cases only if it was
neutral before. -/
theorem claim6_amended (ws : Sheet) (col : Nat) (prices : List (Option ℚ))
    (r : Nat) (hcol : 2 ≤ col) (hr : 2 ≤ r) :
    ((mergePrices ws col prices).cells r col).tag =
      match prices.get? (r - 2), (ws.cells r (col - 1)).val with
      | some (some q), CellVal.num pv =>
          if pv < round2 q then Tag.up
          else if round2 q < pv then Tag.down
          else (ws.cells r col).tag
      | _, _ => (ws.cells r col).tag := by
  rw [mergePrices_cells ws col prices r col (by omega), if_pos rfl, if_pos hr]
  cases hg : prices.get? (r - 2) with
  | none => simp [mergeSpec]
  | some s =>
      cases s with
      | none => simp [mergeSpec]
      | some q =>
          cases hv : (ws.cells r (col - 1)).val <;> simp [mergeSpec, tagSpec]

theorem claim6_witness :
    ((mergePrices sheetSlot1 3 [some 105]).cells 2 3).tag =
      match ([some (105 : ℚ)]).get? (2 - 2), (sheetSlot1.cells 2 (3 - 1)).val with
      | some (some q), CellVal.num pv =>
          if pv < round2 q then Tag.up
          else if round2 q < pv then Tag.down
          else (sheetSlot1.cells 2 3).tag
      | _, _ => (sheetSlot1.cells 2 3).tag :=
  claim6_amended sheetSlot1 3 [some 105] 2 (by decide) (by decide)

/-- C7: on startup, exactly the slots whose designated hour is less than or
equal to the current hour get an immediate historical back-fill; slots with
a later hour get none and stay pending. -/
theorem claim7_startup_backfill (d0 H m hr : Nat) (hm : m < 60)
    (hh : hr ∈ HOURS.map Prod.fst) :
    hr ∈ (startupBackfills d0 (60 * H + m)).map Prod.fst ↔ hr ≤ H := by
  unfold startupBackfills
  constructor
  · intro hmem
    obtain ⟨p, hp, rfl⟩ := List.mem_map.mp hmem
    have hcond := (List.mem_filter.mp hp).2
    simp only [decide_eq_true_eq, combineAt] at hcond
    omega
  · intro hle
    obtain ⟨p, hpmem, hfst⟩ := List.mem_map.mp hh
    refine List.mem_map.mpr ⟨p, List.mem_filter.mpr ⟨hpmem, ?_⟩, hfst⟩
    simp only [decide_eq_true_eq, combineAt, hfst]
    omega

theorem claim7_witness :
    (11 ∈ (startupBackfills 0 (60 * 13 + 15)).map Prod.fst ↔ 11 ≤ 13) ∧
    (14 ∈ (startupBackfills 0 (60 * 13 + 15)).map Prod.fst ↔ 14 ≤ 13) :=
  ⟨claim7_startup_backfill 0 13 15 11 (by decide) (by decide),
   claim7_startup_backfill 0 13 15 14 (by decide) (by decide)⟩

/-- C8 counterexample: the merge enforces no lower bound, so a negative
fetched price is written as a negative cell value, contradicting the
claimed non-negativity of stored cells. -/
theorem claim8_cex :
    ((mergePrices initialSheet 2 [some (-5 : ℚ)]).cells 2 2).val
      = CellVal.num (-5) ∧ (-5 : ℚ) < 0 := by
  with_unfolding_all decide

/-- C8 amended: after a merge every cell is either unchanged or holds the
fetched price rounded to two decimals (an integer number of hundredths),
non-negative whenever the fetched price is non-negative; an absent sample
writes nothing at all, so a blank cell stays blank and is never coerced to
zero. -/
theorem claim8_amended (ws : Sheet) (col : Nat) (prices : List (Option ℚ))
    (r c : Nat) (hcol : 1 ≤ col) :
    ((mergePrices ws col prices).cells r c).val = (ws.cells r c).val ∨
    ∃ q, prices.get? (r - 2) = some (some q) ∧
      ((mergePrices ws col prices).cells r c).val = CellVal.num (round2 q) ∧
      (∃ k : ℤ, round2 q = (k : ℚ) / 100) ∧ (0 ≤ q → 0 ≤ round2 q) := by
  rw [mergePrices_cells ws col prices r c hcol]
  by_cases hc : c = col
  · rw [if_pos hc]
    by_cases hr : 2 ≤ r
    · rw [if_pos hr]
      cases hg : prices.get? (r - 2) with
      | none => exact Or.inl (by simp [mergeSpec])
      | some s =>
          cases s with
          | none => exact Or.inl (by simp [mergeSpec])
          | some q =>
              exact Or.inr ⟨q, rfl, by simp [mergeSpec],
                ⟨pyRound (100 * q), rfl⟩, fun hq => round2_nonneg q hq⟩
    · rw [if_neg hr]
      exact Or.inl rfl
  · rw [if_neg hc]
    exact Or.inl rfl

theorem claim8_witness :
    ((mergePrices initialSheet 2 [some (7 / 2 : ℚ)]).cells 2 2).val
        = (initialSheet.cells 2 2).val ∨
    ∃ q, ([some (7 / 2 : ℚ)]).get? (2 - 2) = some (some q) ∧
      ((mergePrices initialSheet 2 [some (7 / 2 : ℚ)]).cells 2 2).val
        = CellVal.num (round2 q) ∧
      (∃ k : ℤ, round2 q = (k : ℚ) / 100) ∧ (0 ≤ q → 0 ≤ round2 q) :=
  claim8_amended initialSheet 2 [some (7 / 2 : ℚ)] 2 2 (by decide)

end DOW
